import Mathlib

/-!
# vacancy-bot: the claim-tracking core of `main.go`

A shallow embedding of the ledger (`urlToRow`, `taken`), the claim handler
(`handleCallback`, `markTaken`), the renderer (`keyboard`), the ledger insert
(`appendVacancy`), the sender (`sendVacanciesToChat`) and the fetch loop
(`fetchVacancies`).

Conventions of the embedding.

* A Go `string` is a `List Char`.  The only separators and digits the program looks at
  are ASCII, so working on characters instead of UTF-8 bytes gives the same splits.
* A Go `int` / `int64` is an `Int`; the 64-bit range is the predicate `InInt64`.
* A Go `map[K]V` is an association list with unique keys (`GoMap`), read with
  `GoMap.get?` (the comma-ok form) and written with `GoMap.set`.
* A run-time panic is the `Except.error` result; where the function has sent requests
  before the panic, the error carries them.
* What the outside world answers (the spreadsheet append, the detail page fetch) is an
  argument of the function that asks.
-/

namespace VacancyBot

/-! ## Go strings and the library functions the program calls -/

/-- A Go string. -/
abbrev GoString := List Char

/-- The 64-bit range of Go `int` on the platforms the bot runs on. -/
def InInt64 (i : Int) : Prop := -(2 : Int) ^ 63 ≤ i ∧ i < (2 : Int) ^ 63

instance (i : Int) : Decidable (InInt64 i) := by
  unfold InInt64; infer_instance

/-- The run-time failures of the program: an index out of range, and the use of a nil
pointer. -/
inductive Panic where
  | indexOutOfRange
  | nilDereference
  deriving DecidableEq, Repr

/-- Go `strings.Split(s, sep)` for a one-character separator: the pieces between the
occurrences of `sep`, always at least one piece. -/
def stringsSplit (s : GoString) (sep : Char) : List GoString :=
  match s with
  | [] => [[]]
  | c :: cs =>
    if c = sep then [] :: stringsSplit cs sep
    else
      match stringsSplit cs sep with
      | [] => [[c]]
      | p :: ps => (c :: p) :: ps

/-- Go slice indexing `xs[i]`: a panic when `i` is out of range. -/
def index {α : Type} (xs : List α) (i : Nat) : Except Panic α :=
  match xs.get? i with
  | some x => Except.ok x
  | none => Except.error Panic.indexOutOfRange

/-- Go `strings.TrimLeft(s, cutset)` for a one-character cutset. -/
def stringsTrimLeft (s : GoString) (cut : Char) : GoString :=
  s.dropWhile (fun c => c = cut)

/-- The errors of `strconv.Atoi`. -/
inductive NumError where
  | badNumber
  | outOfRange
  deriving DecidableEq, Repr

/-- The value of an ASCII digit. -/
def digitVal (c : Char) : Nat := c.toNat - 48

/-- The digit loop of the fast path of `strconv.Atoi`, on the number read so far:
`none` at the first byte that is not an ASCII digit. -/
def fastDigits : GoString → Nat → Option Nat
  | [], n => some n
  | c :: cs, n => if c.isDigit then fastDigits cs (n * 10 + digitVal c) else none

/-- The digit loop of `strconv.ParseUint(s, 10, 64)`, on the number `n` read so far.  It
stops with `badNumber` at the first character that is not an ASCII digit and with
`outOfRange` at the first digit with which the number no longer fits 64 bits (`n` at or
above the cutoff `maxUint64/10 + 1`, or `n*10 + d` above `maxUint64`), whichever comes
first. -/
def parseDigits : GoString → Nat → Except NumError Nat
  | [], n => Except.ok n
  | c :: cs, n =>
    if c.isDigit then
      if 2 ^ 64 / 10 + 1 ≤ n then Except.error NumError.outOfRange
      else if 2 ^ 64 - 1 < n * 10 + digitVal c then Except.error NumError.outOfRange
      else parseDigits cs (n * 10 + digitVal c)
    else Except.error NumError.badNumber

/-- Go `strconv.ParseUint(s, 10, 0)` as the pair (value, error): the value is 0 with a
malformed text and `maxUint64` with a number that does not fit. -/
def parseUint (s : GoString) : Nat × Option NumError :=
  match s with
  | [] => (0, some NumError.badNumber)
  | _ :: _ =>
    match parseDigits s 0 with
    | Except.ok n => (n, none)
    | Except.error NumError.badNumber => (0, some NumError.badNumber)
    | Except.error NumError.outOfRange => (2 ^ 64 - 1, some NumError.outOfRange)

/-- Go `strconv.ParseInt(s, 10, 0)` on a 64-bit platform, as the pair (value, error): the
sign is picked off, `ParseUint` reads the rest, a malformed text gives 0, and a number
outside the 64-bit range gives the nearest bound with the range error. -/
def parseInt (s : GoString) : Int × Option NumError :=
  match s with
  | [] => (0, some NumError.badNumber)
  | c :: cs =>
    let neg : Bool := c = '-'
    let body : GoString := if c = '+' ∨ c = '-' then cs else s
    let r := parseUint body
    if r.2 = some NumError.badNumber then (0, some NumError.badNumber)
    else if neg = false ∧ 2 ^ 63 ≤ r.1 then ((2 : Int) ^ 63 - 1, some NumError.outOfRange)
    else if neg = true ∧ 2 ^ 63 < r.1 then (-(2 : Int) ^ 63, some NumError.outOfRange)
    else (if neg then -(r.1 : Int) else (r.1 : Int), none)

/-- The length `len(s)` of a Go string: its number of UTF-8 bytes. -/
def byteLen (s : GoString) : Nat := (s.map Char.utf8Size).sum

/-- The fast path of `strconv.Atoi` for a text of 1 to 18 bytes: an optional sign, then
digits only, with no range check. -/
def atoiFast (s : GoString) : Int × Option NumError :=
  match s with
  | [] => (0, some NumError.badNumber)
  | c :: cs =>
    let body : GoString := if c = '-' ∨ c = '+' then cs else s
    match body with
    | [] => (0, some NumError.badNumber)
    | _ :: _ =>
      match fastDigits body 0 with
      | none => (0, some NumError.badNumber)
      | some n => (if c = '-' then -(n : Int) else (n : Int), none)

/-- Go `strconv.Atoi(s)` on a 64-bit platform, as the pair (value, error): the fast path
for a text of 1 to 18 bytes, `ParseInt(s, 10, 0)` otherwise. -/
def strconvAtoi (s : GoString) : Int × Option NumError :=
  if 0 < byteLen s ∧ byteLen s < 19 then atoiFast s else parseInt s

/-- Go `fmt.Sprintf("%d", i)`: the decimal text, with a leading minus sign when negative. -/
def fmtInt (i : Int) : GoString :=
  if i < 0 then '-' :: Nat.toDigits 10 i.natAbs else Nat.toDigits 10 i.toNat

/-- Go `unicode.IsSpace`: the white space characters `strings.TrimSpace` removes. -/
def isSpace (c : Char) : Bool :=
  let n := c.toNat
  (9 ≤ n ∧ n ≤ 13) ∨ n = 32 ∨ n = 0x85 ∨ n = 0xA0 ∨ n = 0x1680 ∨ (0x2000 ≤ n ∧ n ≤ 0x200A)
    ∨ n = 0x2028 ∨ n = 0x2029 ∨ n = 0x202F ∨ n = 0x205F ∨ n = 0x3000

/-- Go `strings.TrimSpace(s)`. -/
def stringsTrimSpace (s : GoString) : GoString :=
  ((s.dropWhile isSpace).reverse.dropWhile isSpace).reverse

/-! ## Go maps -/

/-- A Go `map[K]V`: the key/value pairs, each key at most once. -/
structure GoMap (K V : Type) where
  entries : List (K × V)
  deriving DecidableEq, Repr

namespace GoMap

variable {K V : Type} [DecidableEq K]

/-- The literal `map[K]V{}`. -/
def empty : GoMap K V := ⟨[]⟩

/-- The lookup in a list of pairs. -/
def find (k : K) : List (K × V) → Option V
  | [] => none
  | (k', v) :: rest => if k' = k then some v else find k rest

/-- The comma-ok read `v, ok := m[k]`: `none` when `ok` is false. -/
def get? (m : GoMap K V) (k : K) : Option V := find k m.entries

/-- The plain read `m[k]`, with the zero value of `V` for an absent key. -/
def getD (m : GoMap K V) (k : K) (zero : V) : V := (m.get? k).getD zero

/-- The write `m[k] = v`. -/
def set (m : GoMap K V) (k : K) (v : V) : GoMap K V :=
  ⟨(k, v) :: m.entries.filter (fun p => !decide (p.1 = k))⟩

end GoMap

/-! ## The data of `main.go` -/

/-- The constant `BaseURL`. -/
def BaseURL : GoString := "https://gsz.gov.by".toList

/-- The constant `SpreadsheetID`. -/
def SpreadsheetID : GoString := "1QOd0QpM-QKhRuQn1pvSgbmzxGcRUKbN47gU5u_oT2Xg".toList

/-- The constant `MaxItems`. -/
def MaxItems : Nat := 5

/-- The struct `Vacancy`. -/
structure Vacancy where
  Title : GoString
  Salary : GoString
  Company : GoString
  Address : GoString
  Education : GoString
  ContactName : GoString
  ContactPhone : GoString
  URL : GoString
  deriving DecidableEq, Repr

/-- The two global maps of the ledger: `urlToRow` (URL -> row) and `taken`
(row -> claimant, column J). -/
structure Ledger where
  urlToRow : GoMap GoString Int
  taken : GoMap Int GoString
  deriving DecidableEq, Repr

/-- The global `users`: id -> full name.  The comment of the source calls the key a chat
id; `handleCallback` reads the map at `q.From.ID`, the id of the user who pressed. -/
def users : GoMap Int GoString :=
  ⟨[(1414802865, "Подтероб Юлия Сергеевна".toList),
    (741457312, "Сасим Ярослав Сергеевич".toList)]⟩

/-- A button of an inline keyboard: `NewInlineKeyboardButtonData(text, data)` or
`NewInlineKeyboardButtonURL(text, url)`. -/
inductive Button where
  | data (text : GoString) (payload : GoString)
  | url (text : GoString) (link : GoString)
  deriving DecidableEq, Repr

/-- The rows of buttons of `tgbotapi.InlineKeyboardMarkup`. -/
abbrev InlineKeyboardMarkup := List (List Button)

/-- The callback payload of the first button of a keyboard, when it is a data button. -/
def firstPayload (kb : InlineKeyboardMarkup) : Option GoString :=
  match kb with
  | (Button.data _ payload :: _) :: _ => some payload
  | _ => none

/-- The requests the program sends to the messaging channel and to the spreadsheet.
A sent message is recorded with its listing (its text is `formatVacancy` of the listing)
and its keyboard. -/
inductive Effect where
  | answerCallback (queryID : GoString)
  | sheetUpdate (range : GoString) (value : GoString)
  | editReplyMarkup (chatID : Int) (messageID : Int) (markup : InlineKeyboardMarkup)
  | sendMessage (chatID : Int) (listing : Vacancy) (markup : InlineKeyboardMarkup)
  deriving DecidableEq, Repr

/-- The fields of `tgbotapi.CallbackQuery` the handler reads: `q.ID`, `q.From.ID`,
`q.Data`, `q.Message.Chat.ID` and `q.Message.MessageID` (`main` reads `q.Message`
before it calls the handler, so the message is there). -/
structure CallbackQuery where
  ID : GoString
  FromID : Int
  Data : GoString
  ChatID : Int
  MessageID : Int
  deriving DecidableEq, Repr

/-! ## The ledger and the claim handler -/

/-- The function `keyboard(row)`: the pending control when `taken` has an entry for the
row, the claim control with payload `apply|<row>` otherwise. -/
def keyboard (s : Ledger) (row : Int) : InlineKeyboardMarkup :=
  match s.taken.get? row with
  | some _ =>
    [[Button.data "🕓 На рассмотрении".toList "noop".toList],
     [Button.url "📊 Таблица".toList
        ("https://docs.google.com/spreadsheets/d/".toList ++ SpreadsheetID)]]
  | none =>
    [[Button.data "✅ Откликнуться".toList ("apply|".toList ++ fmtInt row)],
     [Button.url "📊 Таблица".toList
        ("https://docs.google.com/spreadsheets/d/".toList ++ SpreadsheetID)]]

/-- The function `markTaken(row, name)`: the update of cell `J<row>` is sent, its result
is not looked at, and `taken[row] = name`. -/
def markTaken (s : Ledger) (row : Int) (name : GoString) : Ledger × List Effect :=
  (⟨s.urlToRow, s.taken.set row name⟩,
   [Effect.sheetUpdate ('J' :: fmtInt row) name])

/-- The claimant name `handleCallback` computes for a user id: `users[id]`, or
`chat:<id>` when that is the empty string. -/
def claimantName (fromID : Int) : GoString :=
  let name := users.getD fromID []
  if name = [] then "chat:".toList ++ fmtInt fromID else name

/-- The function `handleCallback(bot, q)`: the new ledger and the requests sent, or the
panic that stops it, with the requests sent before it. -/
def handleCallback (s : Ledger) (q : CallbackQuery) :
    Except (Panic × List Effect) (Ledger × List Effect) :=
  let parts := stringsSplit q.Data '|'
  match index parts 0 with
  | Except.error e => Except.error (e, [Effect.answerCallback q.ID])
  | Except.ok p0 =>
    if p0 ≠ "apply".toList then Except.ok (s, [Effect.answerCallback q.ID])
    else
      match index parts 1 with
      | Except.error e => Except.error (e, [Effect.answerCallback q.ID])
      | Except.ok p1 =>
        let row := (strconvAtoi p1).1
        match s.taken.get? row with
        | some _ => Except.ok (s, [Effect.answerCallback q.ID])
        | none =>
          let name := claimantName q.FromID
          let r := markTaken s row name
          Except.ok (r.1, Effect.answerCallback q.ID :: r.2 ++
            [Effect.editReplyMarkup q.ChatID q.MessageID (keyboard r.1 row)])

/-- The callback branch of the update loop of `main` on a list of callback queries, one
after the other: the ledger reached, the requests sent, and the panic that ended the
process if one did.  A panic leaves the ledger as it was when the failing call began. -/
def handleCallbacks (s : Ledger) (qs : List CallbackQuery) :
    Ledger × List Effect × Option Panic :=
  match qs with
  | [] => (s, [], none)
  | q :: rest =>
    match handleCallback s q with
    | Except.error (e, out1) => (s, out1, some e)
    | Except.ok (s1, out1) =>
      let r := handleCallbacks s1 rest
      (r.1, out1 ++ r.2.1, r.2.2)

/-- The function `appendVacancy(v)`.  `resp` is the answer of the spreadsheet to the
append request: `none` when `err != nil`, otherwise `resp.Updates.UpdatedRange`.
The result is the returned row and the new ledger. -/
def appendVacancy (s : Ledger) (v : Vacancy) (resp : Option GoString) :
    Except Panic (Int × Ledger) :=
  match resp with
  | none => Except.ok (0, s)
  | some updatedRange =>
    match index (stringsSplit updatedRange '!') 1 with
    | Except.error e => Except.error e
    | Except.ok cells =>
      let rowStr := stringsTrimLeft cells 'A'
      let row := (strconvAtoi rowStr).1
      Except.ok (row, ⟨s.urlToRow.set v.URL row, s.taken⟩)

/-- The row `sendVacanciesToChat` uses for a listing: the one in `urlToRow`, or the
result of `appendVacancy`. -/
def resolveRow (s : Ledger) (v : Vacancy) (resp : Option GoString) :
    Except Panic (Int × Ledger) :=
  match s.urlToRow.get? v.URL with
  | some row => Except.ok (row, s)
  | none => appendVacancy s v resp

/-- The function `sendVacanciesToChat(bot, chatID)` on the listings `fetchVacancies()`
returned, each with the answer the spreadsheet gives if that listing is appended: the new
ledger and the messages sent, or the panic that stops it, with the messages sent before
it. -/
def sendVacanciesToChat (s : Ledger) (chatID : Int) :
    List (Vacancy × Option GoString) → Except (Panic × List Effect) (Ledger × List Effect)
  | [] => Except.ok (s, [])
  | (v, resp) :: rest =>
    match resolveRow s v resp with
    | Except.error e => Except.error (e, [])
    | Except.ok (row, s1) =>
      match sendVacanciesToChat s1 chatID rest with
      | Except.error (e, out) =>
        Except.error (e, Effect.sendMessage chatID v (keyboard s1 row) :: out)
      | Except.ok (s2, out) =>
        Except.ok (s2, Effect.sendMessage chatID v (keyboard s1 row) :: out)

/-! ## The fetch loop -/

/-- What `http.Get(url)` followed by `goquery.NewDocumentFromReader(resp.Body)` gives:
`http.Get` returns an error; or a response arrives with some status code and reading its
body fails, so that the document is nil; or a response arrives with some status code and
the document is built, `content` being what the program then finds in it.  The program
never looks at the status code. -/
inductive Fetched (α : Type) where
  | getFailed
  | unread (statusCode : Nat)
  | document (statusCode : Nat) (content : α)
  deriving DecidableEq, Repr

/-- The six texts `parseVacancy` reads from the document of a detail page; a text is
empty when the page has no such block. -/
structure Detail where
  Salary : GoString
  Address : GoString
  Education : GoString
  Company : GoString
  ContactName : GoString
  ContactPhone : GoString
  deriving DecidableEq, Repr

/-- A link `h4.job-title a` of the results page: its `href`, its text, and what fetching
its detail page gives. -/
structure Link where
  href : GoString
  text : GoString
  page : Fetched Detail
  deriving DecidableEq, Repr

/-- The function `parseVacancy(url)`, given what fetching `url` gives: the error result
(`none`) when `http.Get` fails, a panic at `doc.Find` when the document is nil (the error
of `NewDocumentFromReader` is dropped), the listing otherwise. -/
def parseVacancy (url : GoString) (page : Fetched Detail) : Except Panic (Option Vacancy) :=
  match page with
  | Fetched.getFailed => Except.ok none
  | Fetched.unread _ => Except.error Panic.nilDereference
  | Fetched.document _ d =>
    Except.ok (some ⟨[], d.Salary, d.Company, d.Address, d.Education, d.ContactName,
      d.ContactPhone, url⟩)

/-- The method `EachWithBreak` of goquery: the callback runs on the elements in order
until it returns false; a panic of the callback ends the loop. -/
def eachWithBreak {α σ : Type} (f : σ → Nat → α → Except Panic (σ × Bool)) :
    Nat → List α → σ → Except Panic σ
  | _, [], st => Except.ok st
  | i, x :: xs, st =>
    match f st i x with
    | Except.error e => Except.error e
    | Except.ok r => if r.2 then eachWithBreak f (i + 1) xs r.1 else Except.ok r.1

/-- The callback `fetchVacancies` passes to `EachWithBreak`, on the variable `list`. -/
def fetchStep (list : List Vacancy) (_i : Nat) (l : Link) :
    Except Panic (List Vacancy × Bool) :=
  match parseVacancy (BaseURL ++ l.href) l.page with
  | Except.error e => Except.error e
  | Except.ok (some v) =>
    let list1 := list ++ [⟨stringsTrimSpace l.text, v.Salary, v.Company, v.Address,
      v.Education, v.ContactName, v.ContactPhone, v.URL⟩]
    Except.ok (list1, decide (list1.length < MaxItems))
  | Except.ok none => Except.ok (list, decide (list.length < MaxItems))

/-- The function `fetchVacancies()`.  `results` is what fetching the search page gives,
the content of its document being the links `h4.job-title a` in page order: the empty
result when `http.Get(SearchURL)` fails, a panic at `doc.Find` when the document is nil,
the loop over the links otherwise. -/
def fetchVacancies (results : Fetched (List Link)) : Except Panic (List Vacancy) :=
  match results with
  | Fetched.getFailed => Except.ok []
  | Fetched.unread _ => Except.error Panic.nilDereference
  | Fetched.document _ links => eachWithBreak fetchStep 0 links []

/-! ## Scenarios and the values the properties are stated with -/

/-- The ledger a call leaves, when it did not panic. -/
def ledgerOf (r : Except (Panic × List Effect) (Ledger × List Effect)) : Option Ledger :=
  match r with
  | Except.ok (s, _) => some s
  | Except.error _ => none

/-- The listing identifier of the end-to-end scenario. -/
def scenarioURL : GoString := "https://gsz.gov.by/x/1".toList

/-- The ledger of the end-to-end scenario before any claim: the identifier is row 7,
without claimant. -/
def ledgerOpen7 : Ledger := ⟨⟨[(scenarioURL, 7)]⟩, GoMap.empty⟩

/-- The ledger of the end-to-end scenario after user A has claimed row 7. -/
def ledgerClaimed7 : Ledger :=
  ⟨⟨[(scenarioURL, 7)]⟩, ⟨[(7, "Подтероб Юлия Сергеевна".toList)]⟩⟩

/-- The ledger at start, with both maps empty. -/
def ledgerEmpty : Ledger := ⟨GoMap.empty, GoMap.empty⟩

/-- A callback query of user `fromID` with payload `payload`, on message 1 of chat 1. -/
def press (fromID : Int) (payload : String) : CallbackQuery :=
  ⟨"cb".toList, fromID, payload.toList, 1, 1⟩

/-- The A1 range the spreadsheet reports for the ten columns A..J of row `r` of a sheet:
`<sheet>!A<r>:J<r>`. -/
def updatedRange (sheet : GoString) (r : Nat) : GoString :=
  sheet ++ '!' :: 'A' :: (Nat.toDigits 10 r ++ ':' :: 'J' :: Nat.toDigits 10 r)

/-- The listing `fetchVacancies` builds from a link whose detail page `http.Get`
fetched, whatever the status code; none for any other link. -/
def listingOf (l : Link) : Option Vacancy :=
  match l.page with
  | Fetched.document _ d => some ⟨stringsTrimSpace l.text, d.Salary, d.Company, d.Address,
      d.Education, d.ContactName, d.ContactPhone, BaseURL ++ l.href⟩
  | _ => none

/-- The body of the detail page of a link could not be read. -/
def Link.unread (l : Link) : Bool :=
  match l.page with
  | Fetched.unread _ => true
  | _ => false

/-- The detail page of a link was fetched by `http.Get` without error. -/
def Link.fetched (l : Link) : Bool :=
  match l.page with
  | Fetched.getFailed => false
  | _ => true

/-- The name of a user: the one `users` holds, or `chat:<id>` for a user it does not
hold. -/
def directoryName (u : Int) : GoString :=
  match users.get? u with
  | some name => name
  | none => "chat:".toList ++ fmtInt u

/-- A listing with the identifier of the scenario. -/
def scenarioListing : Vacancy := ⟨[], [], [], [], [], [], [], scenarioURL⟩

/-- The ledger after the claim action `apply|0` of user 5 in the empty ledger. -/
def ledgerZeroClaimed : Ledger := (handleCallbacks ledgerEmpty [press 5 "apply|0"]).1

/-! ## Lemmas on the library functions -/

theorem digitChar_spec (d : Nat) (h : d < 10) :
    (Nat.digitChar d).isDigit = true ∧ digitVal (Nat.digitChar d) = d := by
  interval_cases d <;> decide

theorem digitVal_le (c : Char) (h : c.isDigit = true) : digitVal c ≤ 9 := by
  simp only [Char.isDigit, Bool.and_eq_true, decide_eq_true_eq] at h
  have h2 : c.val.toNat ≤ 57 := h.2
  simp only [digitVal, Char.toNat]
  omega

theorem fastDigits_append (a b : GoString) (acc : Nat) :
    fastDigits (a ++ b) acc = (fastDigits a acc).bind (fastDigits b) := by
  induction a generalizing acc with
  | nil => simp [fastDigits]
  | cons c cs ih =>
    by_cases hc : c.isDigit = true
    · simp [fastDigits, hc, ih]
    · simp [fastDigits, hc]

/-- The number the unchecked loop reads is at least the number it starts from, and has
at most as many further digits as the text. -/
theorem fastDigits_bound (s : GoString) : ∀ (acc n : Nat), fastDigits s acc = some n →
    acc ≤ n ∧ n + 1 ≤ (acc + 1) * 10 ^ s.length := by
  induction s with
  | nil =>
    intro acc n h
    simp only [fastDigits, Option.some.injEq] at h
    subst h
    simp
  | cons c cs ih =>
    intro acc n h
    by_cases hc : c.isDigit = true
    · simp only [fastDigits, hc, if_true] at h
      obtain ⟨h1, h2⟩ := ih _ _ h
      have hd := digitVal_le c hc
      refine ⟨by omega, ?_⟩
      have h3 : (acc * 10 + digitVal c + 1) * 10 ^ cs.length ≤
          ((acc + 1) * 10) * 10 ^ cs.length :=
        Nat.mul_le_mul_right _ (by omega)
      rw [List.length_cons, pow_succ, mul_comm (10 ^ cs.length) 10, ← mul_assoc]
      omega
    · simp [fastDigits, hc] at h

/-- Where the unchecked loop reads a number below 2^64, the checked loop of `ParseUint`
reads the same number. -/
theorem parseDigits_of_fastDigits (s : GoString) : ∀ (acc n : Nat),
    fastDigits s acc = some n → n < 2 ^ 64 → parseDigits s acc = Except.ok n := by
  induction s with
  | nil =>
    intro acc n h _
    simp only [fastDigits, Option.some.injEq] at h
    subst h
    rfl
  | cons c cs ih =>
    intro acc n h hn
    by_cases hc : c.isDigit = true
    · simp only [fastDigits, hc, if_true] at h
      have hb := (fastDigits_bound cs _ _ h).1
      have e64 : (2 : Nat) ^ 64 = 18446744073709551616 := by norm_num
      rw [e64] at hn
      have h1 : ¬ (2 ^ 64 / 10 + 1 ≤ acc) := by
        norm_num
        omega
      have h2 : ¬ (2 ^ 64 - 1 < acc * 10 + digitVal c) := by
        norm_num
        omega
      simp only [parseDigits, hc, if_true, h1, h2, if_false]
      exact ih _ _ h (by omega)
    · simp [fastDigits, hc] at h

/-- On a text of at most 18 digits' length the checked loop stops at a character that is
not a digit, when there is one. -/
theorem parseDigits_of_fastDigits_none (s : GoString) : ∀ (acc : Nat),
    fastDigits s acc = none → (acc + 1) * 10 ^ s.length ≤ 10 ^ 18 →
    parseDigits s acc = Except.error NumError.badNumber := by
  induction s with
  | nil => intro acc h; simp [fastDigits] at h
  | cons c cs ih =>
    intro acc h hb
    by_cases hc : c.isDigit = true
    · simp only [fastDigits, hc, if_true] at h
      have hd := digitVal_le c hc
      rw [List.length_cons, pow_succ, mul_comm (10 ^ cs.length) 10, ← mul_assoc] at hb
      have hp : 1 ≤ 10 ^ cs.length := Nat.one_le_pow _ _ (by norm_num)
      have h3 : (acc * 10 + digitVal c + 1) * 10 ^ cs.length ≤
          ((acc + 1) * 10) * 10 ^ cs.length :=
        Nat.mul_le_mul_right _ (by omega)
      have h4 : (acc + 1) * 10 * 1 ≤ (acc + 1) * 10 * 10 ^ cs.length :=
        Nat.mul_le_mul_left _ hp
      have e18 : (10 : Nat) ^ 18 = 1000000000000000000 := by norm_num
      rw [e18] at hb
      have h1 : ¬ (2 ^ 64 / 10 + 1 ≤ acc) := by
        norm_num
        omega
      have h2 : ¬ (2 ^ 64 - 1 < acc * 10 + digitVal c) := by
        norm_num
        omega
      simp only [parseDigits, hc, if_true, h1, h2, if_false]
      exact ih _ h (by rw [e18]; omega)
    · simp [parseDigits, hc]

/-- After a run of digits read without error the checked loop goes on with the rest. -/
theorem parseDigits_append_ok (a b : GoString) : ∀ (acc n : Nat),
    parseDigits a acc = Except.ok n → parseDigits (a ++ b) acc = parseDigits b n := by
  induction a with
  | nil =>
    intro acc n h
    simp only [parseDigits, Except.ok.injEq] at h
    subst h
    rfl
  | cons c cs ih =>
    intro acc n h
    simp only [parseDigits, List.cons_append] at h ⊢
    split_ifs at h ⊢ with hc h1 h2
    exact ih _ _ h

theorem length_le_byteLen (s : GoString) : s.length ≤ byteLen s := by
  induction s with
  | nil => simp [byteLen]
  | cons c cs ih =>
    have := c.utf8Size_pos
    simp only [byteLen, List.map_cons, List.sum_cons, List.length_cons] at ih ⊢
    omega

/-- The fast path of `strconv.Atoi` returns what `ParseInt` returns on a text of fewer
than 19 characters. -/
theorem atoiFast_eq_parseInt (s : GoString) (h : s.length < 19) : atoiFast s = parseInt s := by
  cases s with
  | nil => rfl
  | cons c cs =>
    have key : ∀ body : GoString, body.length ≤ 18 → ∀ sign : Bool,
        (match body with
          | [] => ((0 : Int), some NumError.badNumber)
          | _ :: _ =>
            match fastDigits body 0 with
            | none => (0, some NumError.badNumber)
            | some n => (if sign then -(n : Int) else (n : Int), none)) =
        (if (parseUint body).2 = some NumError.badNumber then (0, some NumError.badNumber)
          else if sign = false ∧ 2 ^ 63 ≤ (parseUint body).1 then
            ((2 : Int) ^ 63 - 1, some NumError.outOfRange)
          else if sign = true ∧ 2 ^ 63 < (parseUint body).1 then
            (-(2 : Int) ^ 63, some NumError.outOfRange)
          else (if sign then -((parseUint body).1 : Int) else ((parseUint body).1 : Int),
            none)) := by
      intro body hlen sign
      cases body with
      | nil => simp [parseUint]
      | cons b bs =>
        have hpow : (0 + 1) * 10 ^ (b :: bs).length ≤ 10 ^ 18 := by
          rw [Nat.zero_add, Nat.one_mul]
          exact Nat.pow_le_pow_right (by norm_num) hlen
        cases hf : fastDigits (b :: bs) 0 with
        | none =>
          have hp := parseDigits_of_fastDigits_none _ 0 hf hpow
          simp [parseUint, hp]
        | some n =>
          have hn := (fastDigits_bound _ _ _ hf).2
          have hn18 : n < 10 ^ 18 := by omega
          have e18 : (10 : Nat) ^ 18 = 1000000000000000000 := by norm_num
          rw [e18] at hn18
          have hp := parseDigits_of_fastDigits _ 0 n hf (by norm_num; omega)
          have h1 : ¬ (9223372036854775808 ≤ n) := by omega
          have h2 : ¬ (9223372036854775808 < n) := by omega
          simp [parseUint, hp, h1, h2]
    simp only [List.length_cons] at h
    unfold atoiFast parseInt
    dsimp only
    by_cases hm : c = '-'
    · subst hm
      have := key cs (by omega) true
      simpa using this
    · by_cases hp : c = '+'
      · subst hp
        have := key cs (by omega) false
        simpa using this
      · have := key (c :: cs) (by simp; omega) false
        simpa [hm, hp] using this

/-- The function `strconv.Atoi` is `ParseInt` in base 10 on every text. -/
theorem strconvAtoi_eq_parseInt (s : GoString) : strconvAtoi s = parseInt s := by
  unfold strconvAtoi
  split_ifs with h
  · exact atoiFast_eq_parseInt s (by have := length_le_byteLen s; omega)
  · rfl

/-- The range error comes first: digits that no longer fit 64 bits end the reading
before the character after them is looked at. -/
theorem strconvAtoi_overflow_first :
    strconvAtoi "18446744073709551616:J7".toList =
      (9223372036854775807, some NumError.outOfRange) ∧
    strconvAtoi "18446744073709551615:J7".toList = (0, some NumError.badNumber) := by
  constructor <;> decide

/-- The digits `Nat.toDigitsCore` puts in front of its accumulator, with enough fuel:
a non-empty run of ASCII digits that `fastDigits` reads back as the number. -/
theorem toDigitsCore_spec (f : Nat) : ∀ (n : Nat) (ds : List Char), n < f →
    ∃ pre : List Char, Nat.toDigitsCore 10 f n ds = pre ++ ds ∧ pre ≠ [] ∧
      (∀ c ∈ pre, c.isDigit = true) ∧ fastDigits pre 0 = some n := by
  induction f with
  | zero => intro n ds h; omega
  | succ f ih =>
    intro n ds h
    have hd := digitChar_spec (n % 10) (Nat.mod_lt _ (by decide))
    by_cases h0 : n / 10 = 0
    · refine ⟨[Nat.digitChar (n % 10)], ?_, by simp, ?_, ?_⟩
      · simp [Nat.toDigitsCore, h0]
      · intro c hc
        simp at hc
        rw [hc]; exact hd.1
      · have hn : n % 10 = n := by omega
        rw [hn] at hd
        simp [fastDigits, hn, hd.1, hd.2]
    · obtain ⟨pre, hpre, hne, hdig, hval⟩ :=
        ih (n / 10) (Nat.digitChar (n % 10) :: ds) (by omega)
      refine ⟨pre ++ [Nat.digitChar (n % 10)], ?_, by simp, ?_, ?_⟩
      · simp [Nat.toDigitsCore, h0, hpre]
      · intro c hc
        rcases List.mem_append.1 hc with hc | hc
        · exact hdig c hc
        · simp at hc
          rw [hc]; exact hd.1
      · rw [fastDigits_append, hval]
        simp [fastDigits, hd.1, hd.2]
        omega

/-- The decimal text of a natural number is a non-empty run of ASCII digits that
`fastDigits` reads back. -/
theorem toDigits_spec (n : Nat) :
    Nat.toDigits 10 n ≠ [] ∧ (∀ c ∈ Nat.toDigits 10 n, c.isDigit = true) ∧
      fastDigits (Nat.toDigits 10 n) 0 = some n := by
  obtain ⟨pre, hpre, hne, hdig, hval⟩ := toDigitsCore_spec (n + 1) n [] (by omega)
  have : Nat.toDigits 10 n = pre := by simp [Nat.toDigits, hpre]
  rw [this]
  exact ⟨hne, hdig, hval⟩

/-- The function `ParseUint` reads the decimal text of a number below 2^64 back. -/
theorem parseUint_toDigits (n : Nat) (hn : n < 2 ^ 64) :
    parseUint (Nat.toDigits 10 n) = (n, none) := by
  obtain ⟨hne, _, hval⟩ := toDigits_spec n
  have hp := parseDigits_of_fastDigits _ 0 n hval hn
  cases h : Nat.toDigits 10 n with
  | nil => exact absurd h hne
  | cons c cs => rw [h] at hp; simp [parseUint, hp]

/-- The text `fmt.Sprintf("%d", r)` never holds the character `|`. -/
theorem fmtInt_no_bar (r : Int) : '|' ∉ fmtInt r := by
  have key : ∀ n : Nat, '|' ∉ Nat.toDigits 10 n := by
    intro n hmem
    have := (toDigits_spec n).2.1 _ hmem
    revert this; decide
  unfold fmtInt
  split
  · intro hmem
    rcases List.mem_cons.1 hmem with h | h
    · revert h; decide
    · exact key _ h
  · exact key _

/-- Reading back the decimal text: `strconv.Atoi(fmt.Sprintf("%d", r))` is `r`, without
error, for every 64-bit `r`. -/
theorem strconvAtoi_fmtInt (r : Int) (hr : InInt64 r) : strconvAtoi (fmtInt r) = (r, none) := by
  rw [strconvAtoi_eq_parseInt]
  obtain ⟨hlo, hhi⟩ := hr
  have e63 : (2 : Int) ^ 63 = 9223372036854775808 := by norm_num
  rw [e63] at hlo hhi
  by_cases hneg : r < 0
  · have hu := parseUint_toDigits r.natAbs (by norm_num; omega)
    have hle : ¬ (9223372036854775808 < r.natAbs) := by omega
    have hback : -|r| = r := by rw [abs_of_neg hneg]; simp
    simp [fmtInt, hneg, parseInt, hu, hle, hback]
  · obtain ⟨hne, hdig, _⟩ := toDigits_spec r.toNat
    have hu := parseUint_toDigits r.toNat (by norm_num; omega)
    cases h : Nat.toDigits 10 r.toNat with
    | nil => exact absurd h hne
    | cons c cs =>
      have hc : c.isDigit = true := hdig c (by rw [h]; simp)
      have hm : c ≠ '-' := by rintro rfl; revert hc; decide
      have hp : c ≠ '+' := by rintro rfl; revert hc; decide
      rw [h] at hu
      have hlt : r.toNat < 9223372036854775808 := by omega
      have hback : ((r.toNat : Nat) : Int) = r := by omega
      simp [fmtInt, hneg, parseInt, h, hm, hp, hu, hlt, hback]

/-- The value `strconv.Atoi` returns is always a 64-bit integer. -/
theorem strconvAtoi_inInt64 (s : GoString) : InInt64 (strconvAtoi s).1 := by
  rw [strconvAtoi_eq_parseInt]
  have e63 : (2 : Int) ^ 63 = 9223372036854775808 := by norm_num
  have n63 : (2 : Nat) ^ 63 = 9223372036854775808 := by norm_num
  unfold InInt64
  rw [e63]
  cases s with
  | nil => constructor <;> simp [parseInt]
  | cons c cs =>
    simp only [parseInt]
    generalize parseUint (if c = '+' ∨ c = '-' then cs else c :: cs) = r
    generalize decide (c = '-') = neg
    rw [e63, n63]
    cases neg with
    | false =>
      by_cases h0 : r.2 = some NumError.badNumber
      · simp [h0]
      · by_cases h1 : 9223372036854775808 ≤ r.1
        · simp [h0, h1]
        · simp only [h0, h1, if_false, and_false, false_and, and_true, Bool.false_eq_true]
          constructor <;> omega
    | true =>
      by_cases h0 : r.2 = some NumError.badNumber
      · simp [h0]
      · by_cases h1 : 9223372036854775808 < r.1
        · simp [h0, h1]
        · simp only [h0, h1, if_false, and_false, false_and, if_true, Bool.true_eq_false]
          constructor <;> omega

theorem stringsSplit_no_sep (s : GoString) (sep : Char) (h : sep ∉ s) :
    stringsSplit s sep = [s] := by
  induction s with
  | nil => rfl
  | cons c cs ih =>
    have hc : c ≠ sep := fun e => h (by simp [e])
    have hcs : sep ∉ cs := fun e => h (by simp [e])
    simp [stringsSplit, hc, ih hcs]

theorem stringsSplit_first (a b : GoString) (sep : Char) (h : sep ∉ a) :
    stringsSplit (a ++ sep :: b) sep = a :: stringsSplit b sep := by
  induction a with
  | nil => simp [stringsSplit]
  | cons c cs ih =>
    have hc : c ≠ sep := fun e => h (by simp [e])
    have hcs : sep ∉ cs := fun e => h (by simp [e])
    simp [stringsSplit, hc, ih hcs]

/-- Splitting the claim payload: `strings.Split("apply|" + t, "|")` is `["apply", t]`
when `t` has no `|`. -/
theorem stringsSplit_apply (t : GoString) (h : '|' ∉ t) :
    stringsSplit ("apply|".toList ++ t) '|' = ["apply".toList, t] := by
  have e : "apply|".toList ++ t = "apply".toList ++ '|' :: t := by
    show "apply|".toList ++ t = "apply".toList ++ ([ '|' ] ++ t)
    rw [← List.append_assoc]; rfl
  rw [e, stringsSplit_first _ _ _ (by decide), stringsSplit_no_sep _ _ h]

/-! ## Lemmas on Go maps -/

namespace GoMap

variable {K V : Type} [DecidableEq K]

theorem find_filter_ne (k k' : K) (l : List (K × V)) (h : k' ≠ k) :
    find k' (l.filter (fun p => !decide (p.1 = k))) = find k' l := by
  induction l with
  | nil => rfl
  | cons p rest ih =>
    obtain ⟨a, b⟩ := p
    by_cases ha : a = k
    · have hak : a ≠ k' := fun e => h (e ▸ ha)
      rw [List.filter_cons_of_neg (by simp [ha])]
      simp only [find, if_neg hak]
      exact ih
    · rw [List.filter_cons_of_pos (by simp [ha])]
      by_cases hk : a = k'
      · simp only [find, if_pos hk]
      · simp only [find, if_neg hk]
        exact ih

/-- Reading a key just written gives the value written. -/
theorem get?_set_same (m : GoMap K V) (k : K) (v : V) : (m.set k v).get? k = some v := by
  simp [get?, set, find]

/-- Writing a key leaves the other keys as they were. -/
theorem get?_set_other (m : GoMap K V) (k k' : K) (v : V) (h : k' ≠ k) :
    (m.set k v).get? k' = m.get? k' := by
  have hk : k ≠ k' := fun e => h e.symm
  simp [get?, set, find, hk, find_filter_ne k k' m.entries h]

end GoMap

/-! ## Lemmas on the claim handler -/

/-- What `handleCallback` does on the payload `apply|<r>`: nothing when the row has a
claimant, `markTaken` with the name of the user otherwise. -/
theorem handleCallback_apply (s : Ledger) (q : CallbackQuery) (r : Int) (hr : InInt64 r)
    (hd : q.Data = "apply|".toList ++ fmtInt r) :
    handleCallback s q =
      match s.taken.get? r with
      | some _ => Except.ok (s, [Effect.answerCallback q.ID])
      | none =>
        Except.ok (⟨s.urlToRow, s.taken.set r (claimantName q.FromID)⟩,
          [Effect.answerCallback q.ID,
           Effect.sheetUpdate ('J' :: fmtInt r) (claimantName q.FromID),
           Effect.editReplyMarkup q.ChatID q.MessageID
             (keyboard ⟨s.urlToRow, s.taken.set r (claimantName q.FromID)⟩ r)]) := by
  unfold handleCallback
  rw [hd, stringsSplit_apply _ (fmtInt_no_bar r)]
  simp only [index, List.get?, strconvAtoi_fmtInt r hr, markTaken]
  cases s.taken.get? r <;> simp

theorem index_error {α : Type} (xs : List α) (i : Nat) (e : Panic)
    (h : index xs i = Except.error e) : e = Panic.indexOutOfRange := by
  unfold index at h
  cases hx : xs.get? i with
  | none => rw [hx] at h; injection h with h; exact h.symm
  | some x => rw [hx] at h; cases h

/-- The three outcomes of `handleCallback`: a panic after the callback was answered, no
change, or one new claimant on a row that had none. -/
theorem handleCallback_cases (s : Ledger) (q : CallbackQuery) :
    handleCallback s q =
      Except.error (Panic.indexOutOfRange, [Effect.answerCallback q.ID]) ∨
    (∃ out, handleCallback s q = Except.ok (s, out)) ∨
    (∃ row out, s.taken.get? row = none ∧
      handleCallback s q =
        Except.ok (⟨s.urlToRow, s.taken.set row (claimantName q.FromID)⟩, out)) := by
  unfold handleCallback
  dsimp only
  cases h0 : index (stringsSplit q.Data '|') 0 with
  | error e => rw [index_error _ _ _ h0]; exact Or.inl rfl
  | ok p0 =>
    dsimp only
    split_ifs with hp
    · exact Or.inr (Or.inl ⟨_, rfl⟩)
    · cases h1 : index (stringsSplit q.Data '|') 1 with
      | error e => rw [index_error _ _ _ h1]; exact Or.inl rfl
      | ok p1 =>
        dsimp only
        cases ht : s.taken.get? (strconvAtoi p1).1 with
        | some nm => exact Or.inr (Or.inl ⟨_, rfl⟩)
        | none => exact Or.inr (Or.inr ⟨_, _, ht, rfl⟩)

/-- One call of `handleCallback` keeps every claimant there is. -/
theorem handleCallback_keeps (s s1 : Ledger) (q : CallbackQuery) (out : List Effect)
    (r : Int) (n : GoString) (h : s.taken.get? r = some n)
    (hq : handleCallback s q = Except.ok (s1, out)) :
    s1.taken.get? r = some n ∧ s1.urlToRow = s.urlToRow := by
  rcases handleCallback_cases s q with he | ⟨o, ho⟩ | ⟨row, o, hrow, ho⟩
  · rw [he] at hq; cases hq
  · rw [ho] at hq; cases hq; exact ⟨h, rfl⟩
  · rw [ho] at hq; cases hq
    have hne : r ≠ row := by
      intro e; rw [e, hrow] at h; cases h
    exact ⟨by rw [GoMap.get?_set_other _ _ _ _ hne]; exact h, rfl⟩

/-- Any run of callbacks keeps every claimant there is, and `urlToRow`. -/
theorem handleCallbacks_keeps (qs : List CallbackQuery) : ∀ (s : Ledger) (r : Int)
    (n : GoString), s.taken.get? r = some n →
    (handleCallbacks s qs).1.taken.get? r = some n := by
  induction qs with
  | nil => intro s r n h; exact h
  | cons q rest ih =>
    intro s r n h
    unfold handleCallbacks
    cases hq : handleCallback s q with
    | error e => exact h
    | ok p =>
      obtain ⟨s1, out⟩ := p
      exact ih s1 r n (handleCallback_keeps s s1 q out r n h hq).1

/-- The first payload of `keyboard`. -/
theorem firstPayload_keyboard (s : Ledger) (r : Int) :
    firstPayload (keyboard s r) =
      match s.taken.get? r with
      | some _ => some "noop".toList
      | none => some ("apply|".toList ++ fmtInt r) := by
  unfold keyboard
  cases s.taken.get? r <;> rfl

theorem apply_ne_noop (r : Int) : "apply|".toList ++ fmtInt r ≠ "noop".toList := by
  intro h
  have e1 : "apply|".toList = 'a' :: "pply|".toList := rfl
  have e2 : "noop".toList = 'n' :: "oop".toList := rfl
  rw [e1, e2, List.cons_append] at h
  injection h with h1 _
  revert h1; decide

theorem claimantName_ne_nil (u : Int) : claimantName u ≠ [] := by
  unfold claimantName
  dsimp only
  split_ifs with h
  · have e1 : "chat:".toList = 'c' :: "hat:".toList := rfl
    rw [e1]; simp
  · exact h

/-! ## C1: the claimant of a row never changes -/

/-- C1: for every ledger, every row `r` whose claimant is `n` and every finite sequence
of callbacks (any payloads, any users), the claimant of `r` is still `n` in the ledger
the sequence leaves, also when a callback of the sequence panics; and a claim action
`apply|<r>` on the claimed row, by any user, returns with the whole ledger unchanged. -/
theorem C1_claimant_never_changes (s : Ledger) (r : Int) (n : GoString) (hr : InInt64 r)
    (h : s.taken.get? r = some n) :
    (∀ qs : List CallbackQuery, (handleCallbacks s qs).1.taken.get? r = some n) ∧
    (∀ q : CallbackQuery, q.Data = "apply|".toList ++ fmtInt r →
      handleCallback s q = Except.ok (s, [Effect.answerCallback q.ID])) := by
  refine ⟨fun qs => handleCallbacks_keeps qs s r n h, ?_⟩
  intro q hd
  rw [handleCallback_apply s q r hr hd, h]

/-- C1 at the end-to-end scenario: row 7 is claimed by user A, user B presses `apply|7`. -/
theorem C1_claimant_never_changes_witness :
    InInt64 7 ∧ ledgerClaimed7.taken.get? 7 = some "Подтероб Юлия Сергеевна".toList ∧
    (∀ qs : List CallbackQuery,
      (handleCallbacks ledgerClaimed7 qs).1.taken.get? 7 =
        some "Подтероб Юлия Сергеевна".toList) ∧
    handleCallback ledgerClaimed7 (press 741457312 "apply|7") =
      Except.ok (ledgerClaimed7, [Effect.answerCallback "cb".toList]) :=
  have w := C1_claimant_never_changes ledgerClaimed7 7 "Подтероб Юлия Сергеевна".toList
    (by decide) (by decide)
  ⟨by decide, by decide, w.1, w.2 (press 741457312 "apply|7") (by decide)⟩

/-! ## C2: a claim on a row that is not in the ledger -/

/-- C2, refuted as stated: in the empty ledger no identifier has row 0, and the claim
action `apply|0` of user 5 changes the ledger: row 0 gets the claimant `chat:5`. -/
theorem C2_absent_row_counterexample :
    (∀ url : GoString, ledgerEmpty.urlToRow.get? url ≠ some 0) ∧
    ledgerOf (handleCallback ledgerEmpty (press 5 "apply|0")) =
      some ⟨GoMap.empty, ⟨[(0, "chat:5".toList)]⟩⟩ ∧
    ledgerOf (handleCallback ledgerEmpty (press 5 "apply|0")) ≠ some ledgerEmpty := by
  refine ⟨fun url h => ?_, by decide, by decide⟩
  simp [ledgerEmpty, GoMap.empty, GoMap.get?, GoMap.find] at h

/-- C2, amended: for every ledger and every claim action `apply|<r>` whose row `r` is the
row of no identifier in `urlToRow`, `handleCallback` does not panic and leaves
`urlToRow` unchanged; `taken` is unchanged when `r` has an entry in it, and otherwise the
only change is that `taken[r]` becomes the claimant name of the user. -/
theorem C2_absent_row_amended (s : Ledger) (r : Int) (q : CallbackQuery) (hr : InInt64 r)
    (_habs : ∀ url : GoString, s.urlToRow.get? url ≠ some r)
    (hd : q.Data = "apply|".toList ++ fmtInt r) :
    ∃ s1 out, handleCallback s q = Except.ok (s1, out) ∧ s1.urlToRow = s.urlToRow ∧
      (s.taken.get? r ≠ none → s1 = s) ∧
      (s.taken.get? r = none → s1.taken.get? r = some (claimantName q.FromID)) ∧
      (∀ r1 : Int, r1 ≠ r → s1.taken.get? r1 = s.taken.get? r1) := by
  rw [handleCallback_apply s q r hr hd]
  cases ht : s.taken.get? r with
  | some nm => exact ⟨s, _, rfl, rfl, fun _ => rfl, fun h => (by cases h), fun _ _ => rfl⟩
  | none =>
    exact ⟨_, _, rfl, rfl, fun h => absurd rfl h, fun _ => GoMap.get?_set_same _ _ _,
      fun r1 h1 => GoMap.get?_set_other _ _ _ _ h1⟩

/-- C2 amended, at the empty ledger and the payload `apply|0` of user 5. -/
theorem C2_absent_row_amended_witness :
    ∃ s1 out, handleCallback ledgerEmpty (press 5 "apply|0") = Except.ok (s1, out) ∧
      s1.urlToRow = ledgerEmpty.urlToRow ∧
      (ledgerEmpty.taken.get? 0 ≠ none → s1 = ledgerEmpty) ∧
      (ledgerEmpty.taken.get? 0 = none → s1.taken.get? 0 = some (claimantName 5)) ∧
      (∀ r1 : Int, r1 ≠ 0 → s1.taken.get? r1 = ledgerEmpty.taken.get? r1) :=
  C2_absent_row_amended ledgerEmpty 0 (press 5 "apply|0") (by decide)
    (fun url h => by simp [ledgerEmpty, GoMap.empty, GoMap.get?, GoMap.find] at h)
    (by decide)

/-! ## C3: the row `appendVacancy` reads from the updated range -/

theorem digits_no_char (n : Nat) (c : Char) (hc : c.isDigit = false) :
    c ∉ Nat.toDigits 10 n := by
  intro hmem
  rw [(toDigits_spec n).2.1 c hmem] at hc
  cases hc

/-- The text after the sheet name of an updated range is not a number for
`strconv.Atoi`, for every row below 2^64: the digits of the row are read, and the
reading stops at the colon. -/
theorem strconvAtoi_cells (r : Nat) (hr : r < 2 ^ 64) :
    strconvAtoi (stringsTrimLeft
      ('A' :: (Nat.toDigits 10 r ++ ':' :: 'J' :: Nat.toDigits 10 r)) 'A') =
      (0, some NumError.badNumber) := by
  rw [strconvAtoi_eq_parseInt]
  obtain ⟨hne, hdig, hval⟩ := toDigits_spec r
  have hok := parseDigits_of_fastDigits _ 0 r hval hr
  cases h : Nat.toDigits 10 r with
  | nil => exact absurd h hne
  | cons c cs =>
    have hc : c.isDigit = true := hdig c (by rw [h]; simp)
    have hA : c ≠ 'A' := by rintro rfl; revert hc; decide
    have hm : c ≠ '-' := by rintro rfl; revert hc; decide
    have hp : c ≠ '+' := by rintro rfl; revert hc; decide
    have hcolon : parseDigits (':' :: 'J' :: (c :: cs)) r =
        Except.error NumError.badNumber := by
      have hnd : (':' : Char).isDigit = false := by decide
      simp [parseDigits, hnd]
    have hparse : parseDigits ((c :: cs) ++ ':' :: 'J' :: (c :: cs)) 0 =
        Except.error NumError.badNumber := by
      rw [h] at hok
      rw [parseDigits_append_ok _ _ 0 r hok, hcolon]
    have htrim : stringsTrimLeft ('A' :: ((c :: cs) ++ ':' :: 'J' :: (c :: cs))) 'A' =
        (c :: cs) ++ ':' :: 'J' :: (c :: cs) := by
      simp [stringsTrimLeft, List.dropWhile, hA]
    rw [htrim]
    rw [List.cons_append] at hparse ⊢
    simp [parseInt, hm, hp, parseUint, hparse]

/-- C3, what the code does on the ranges of the claim: for every sheet name without `!`
and every row `r` below 2^64, when the append succeeds and the spreadsheet reports the
updated range `<sheet>!A<r>:J<r>`, `appendVacancy` returns row 0, not `r`, and registers
the identifier at row 0, so that the lookup afterwards gives 0: `strings.TrimLeft` leaves
`<r>:J<r>`, which `strconv.Atoi` rejects, and the error is dropped. -/
theorem C3_appendVacancy_reads_row_zero (s : Ledger) (v : Vacancy) (sheet : GoString)
    (r : Nat) (hs : '!' ∉ sheet) (hr : r < 2 ^ 64) :
    appendVacancy s v (some (updatedRange sheet r)) =
      Except.ok (0, ⟨s.urlToRow.set v.URL 0, s.taken⟩) ∧
    (s.urlToRow.set v.URL 0).get? v.URL = some 0 := by
  refine ⟨?_, GoMap.get?_set_same _ _ _⟩
  have hd : '!' ∉ Nat.toDigits 10 r := digits_no_char r '!' (by decide)
  have hrest : '!' ∉ 'A' :: (Nat.toDigits 10 r ++ ':' :: 'J' :: Nat.toDigits 10 r) := by
    intro hmem
    simp only [List.mem_cons, List.mem_append] at hmem
    rcases hmem with h | h | h | h | h
    · revert h; decide
    · exact hd h
    · revert h; decide
    · revert h; decide
    · exact hd h
  have h1 : index (stringsSplit (updatedRange sheet r) '!') 1 =
      Except.ok ('A' :: (Nat.toDigits 10 r ++ ':' :: 'J' :: Nat.toDigits 10 r)) := by
    unfold updatedRange
    rw [stringsSplit_first _ _ _ hs, stringsSplit_no_sep _ _ hrest]
    rfl
  simp only [appendVacancy, h1, strconvAtoi_cells r hr]

/-- C3 at the range of the claim: `Sheet1!A7:J7`, the row 7 just written. -/
theorem C3_appendVacancy_reads_row_zero_witness :
    updatedRange "Sheet1".toList 7 = "Sheet1!A7:J7".toList ∧ '!' ∉ "Sheet1".toList ∧
    7 < 2 ^ 64 ∧
    appendVacancy ledgerEmpty ⟨[], [], [], [], [], [], [], scenarioURL⟩
        (some (updatedRange "Sheet1".toList 7)) =
      Except.ok (0, ⟨ledgerEmpty.urlToRow.set scenarioURL 0, ledgerEmpty.taken⟩) ∧
    (ledgerEmpty.urlToRow.set scenarioURL 0).get? scenarioURL = some 0 :=
  ⟨by decide, by decide, by decide,
    C3_appendVacancy_reads_row_zero ledgerEmpty ⟨[], [], [], [], [], [], [], scenarioURL⟩
      "Sheet1".toList 7 (by decide) (by decide)⟩

/-! ## C4: the control follows the claimant field -/

/-- C4: for every ledger and row `r`, the first button of `keyboard(r)` carries the
payload `apply|<r>` exactly when `r` has no entry in `taken`, and the payload `noop`
exactly when it has one; so after a successful claim on an open row `r` the control of
`r` is the pending one, and it still is after any further sequence of callbacks. -/
theorem C4_keyboard_follows_taken (s : Ledger) (r : Int) :
    (firstPayload (keyboard s r) = some ("apply|".toList ++ fmtInt r) ↔
      s.taken.get? r = none) ∧
    (firstPayload (keyboard s r) = some "noop".toList ↔ s.taken.get? r ≠ none) ∧
    (∀ q : CallbackQuery, InInt64 r → s.taken.get? r = none →
      q.Data = "apply|".toList ++ fmtInt r →
      ∃ s1 out, handleCallback s q = Except.ok (s1, out) ∧
        firstPayload (keyboard s1 r) = some "noop".toList ∧
        Effect.editReplyMarkup q.ChatID q.MessageID (keyboard s1 r) ∈ out ∧
        ∀ qs : List CallbackQuery,
          firstPayload (keyboard (handleCallbacks s1 qs).1 r) = some "noop".toList) := by
  refine ⟨?_, ?_, ?_⟩
  · rw [firstPayload_keyboard]
    cases h : s.taken.get? r with
    | none => simp
    | some nm =>
      simp only [Option.some.injEq, reduceCtorEq, iff_false]
      exact fun e => apply_ne_noop r e.symm
  · rw [firstPayload_keyboard]
    cases h : s.taken.get? r with
    | none =>
      simp only [Option.some.injEq, ne_eq, not_true_eq_false, iff_false]
      exact apply_ne_noop r
    | some nm => simp
  · intro q hr hopen hd
    rw [handleCallback_apply s q r hr hd, hopen]
    refine ⟨_, _, rfl, ?_, by simp, ?_⟩
    · rw [firstPayload_keyboard]
      simp [GoMap.get?_set_same]
    · intro qs
      rw [firstPayload_keyboard,
        handleCallbacks_keeps qs _ r (claimantName q.FromID) (GoMap.get?_set_same _ _ _)]

/-- C4 at the end-to-end scenario: row 7 is open, user A presses `apply|7`. -/
theorem C4_keyboard_follows_taken_witness :
    InInt64 7 ∧ ledgerOpen7.taken.get? 7 = none ∧
    firstPayload (keyboard ledgerOpen7 7) = some "apply|7".toList ∧
    ∃ s1 out, handleCallback ledgerOpen7 (press 1414802865 "apply|7") = Except.ok (s1, out) ∧
      firstPayload (keyboard s1 7) = some "noop".toList ∧
      Effect.editReplyMarkup 1 1 (keyboard s1 7) ∈ out ∧
      ∀ qs : List CallbackQuery,
        firstPayload (keyboard (handleCallbacks s1 qs).1 7) = some "noop".toList :=
  ⟨by decide, by decide, by decide,
    (C4_keyboard_follows_taken ledgerOpen7 7).2.2 (press 1414802865 "apply|7")
      (by decide) (by decide) (by decide)⟩

/-! ## C5: the fetch loop -/

theorem fetchStep_eq (list : List Vacancy) (i : Nat) (l : Link) (h : l.unread = false) :
    fetchStep list i l =
      Except.ok (list ++ (listingOf l).toList,
        decide ((list ++ (listingOf l).toList).length < MaxItems)) := by
  unfold fetchStep listingOf parseVacancy
  unfold Link.unread at h
  cases hp : l.page with
  | getFailed => simp
  | unread st => rw [hp] at h; cases h
  | document st d => simp

/-- The loop of `fetchVacancies` from a `list` that is not full yet, over links none of
which has an unreadable body. -/
theorem eachWithBreak_fetchStep (links : List Link) : ∀ (i : Nat) (list : List Vacancy),
    (∀ l ∈ links, l.unread = false) → list.length < MaxItems →
    eachWithBreak fetchStep i links list =
      Except.ok (list ++ (links.filterMap listingOf).take (MaxItems - list.length)) := by
  induction links with
  | nil => intro i list _ _; simp [eachWithBreak]
  | cons l rest ih =>
    intro i list hread hlen
    have hl0 : l.unread = false := hread l (List.mem_cons_self _ _)
    have hrest : ∀ l1 ∈ rest, l1.unread = false :=
      fun l1 h1 => hread l1 (List.mem_cons_of_mem _ h1)
    unfold eachWithBreak
    rw [fetchStep_eq list i l hl0]
    dsimp only
    cases hl : listingOf l with
    | none =>
      simp only [Option.toList, List.append_nil, hlen, decide_True, if_true]
      rw [ih (i + 1) list hrest hlen, List.filterMap_cons, hl]
    | some v =>
      simp only [Option.toList]
      by_cases hfull : (list ++ [v]).length < MaxItems
      · simp only [hfull, decide_True, if_true]
        rw [ih (i + 1) _ hrest hfull, List.filterMap_cons, hl]
        have e : MaxItems - list.length = (MaxItems - (list ++ [v]).length) + 1 := by
          simp only [List.length_append, List.length_singleton] at hfull ⊢
          omega
        rw [e, List.take_succ_cons]
        simp
      · simp only [hfull, decide_False]
        rw [List.filterMap_cons, hl]
        have e : MaxItems - list.length = 1 := by
          simp only [List.length_append, List.length_singleton] at hfull
          omega
        rw [e]
        simp

theorem filterMap_listingOf_length (links : List Link)
    (hread : ∀ l ∈ links, l.unread = false) :
    (links.filterMap listingOf).length = (links.filter Link.fetched).length := by
  induction links with
  | nil => rfl
  | cons l rest ih =>
    have hl0 : l.unread = false := hread l (List.mem_cons_self _ _)
    have hrest := ih (fun l1 h1 => hread l1 (List.mem_cons_of_mem _ h1))
    unfold Link.unread at hl0
    cases hp : l.page with
    | getFailed =>
      simp [List.filterMap_cons, List.filter_cons, listingOf, Link.fetched, hp, hrest]
    | unread st => rw [hp] at hl0; cases hl0
    | document st d =>
      simp [List.filterMap_cons, List.filter_cons, listingOf, Link.fetched, hp, hrest]

/-- C5, refuted as stated, at a results page with one link.  When the body of its detail
page cannot be read the document is nil and `fetchVacancies` panics: the failed
candidate is not dropped and nothing is returned.  When its detail page is answered with
status 404 and holds none of the texts, the candidate counts as fetched and is returned,
with empty fields. -/
theorem C5_fetchVacancies_counterexample :
    fetchVacancies (Fetched.document 200
        [⟨"/vacancy/1".toList, "Техник".toList, Fetched.unread 200⟩]) =
      Except.error Panic.nilDereference ∧
    fetchVacancies (Fetched.document 200
        [⟨"/vacancy/1".toList, "Техник".toList,
          Fetched.document 404 ⟨[], [], [], [], [], []⟩⟩]) =
      Except.ok [⟨"Техник".toList, [], [], [], [], [], [],
        "https://gsz.gov.by/vacancy/1".toList⟩] :=
  ⟨rfl, rfl⟩

/-- C5, amended: for every sequence of links of the results page and every outcome of
fetching each detail page in which no body fails to be read, `fetchVacancies` returns the
listings of the links whose detail page `http.Get` fetched without error, whatever the
status code and the content, in page order, cut after the first `MaxItems = 5`: a link
whose `http.Get` fails is dropped and the links after it are still tried, the number of
listings is the minimum of 5 and the number of fetched pages, never more than 5; and
when `http.Get` fails on the results page the result is empty. -/
theorem C5_fetchVacancies_amended (statusCode : Nat) (links : List Link)
    (hread : ∀ l ∈ links, l.unread = false) :
    fetchVacancies (Fetched.document statusCode links) =
      Except.ok ((links.filterMap listingOf).take 5) ∧
    ((links.filterMap listingOf).take 5).length = min 5 (links.filter Link.fetched).length ∧
    ((links.filterMap listingOf).take 5).length ≤ 5 ∧
    fetchVacancies Fetched.getFailed = Except.ok [] := by
  refine ⟨?_, ?_, ?_, rfl⟩
  · show eachWithBreak fetchStep 0 links [] = _
    rw [eachWithBreak_fetchStep links 0 [] hread (by decide)]
    rfl
  · rw [List.length_take, filterMap_listingOf_length links hread]
  · rw [List.length_take]
    exact Nat.min_le_left _ _

/-- C5 amended, at a results page with two links: `http.Get` fails on the first, the
second is fetched. -/
theorem C5_fetchVacancies_amended_witness :
    fetchVacancies (Fetched.document 200
        [⟨"/vacancy/1".toList, "Техник".toList, Fetched.getFailed⟩,
         ⟨"/vacancy/2".toList, " Программист ".toList,
           Fetched.document 200 ⟨"1000".toList, [], [], [], [], []⟩⟩]) =
      Except.ok [⟨"Программист".toList, "1000".toList, [], [], [], [], [],
        "https://gsz.gov.by/vacancy/2".toList⟩] :=
  (C5_fetchVacancies_amended 200
    [⟨"/vacancy/1".toList, "Техник".toList, Fetched.getFailed⟩,
     ⟨"/vacancy/2".toList, " Программист ".toList,
       Fetched.document 200 ⟨"1000".toList, [], [], [], [], []⟩⟩]
    (by decide)).1.trans rfl

/-! ## C6: the transition from open to claimed -/

theorem claimantName_eq_directoryName (u : Int) : claimantName u = directoryName u := by
  unfold claimantName directoryName GoMap.getD
  by_cases h1 : u = 1414802865
  · subst h1; decide
  · by_cases h2 : u = 741457312
    · subst h2; decide
    · have h1s : ¬ (1414802865 : Int) = u := fun e => h1 e.symm
      have h2s : ¬ (741457312 : Int) = u := fun e => h2 e.symm
      have hg : users.get? u = none := by
        simp [users, GoMap.get?, GoMap.find, h1s, h2s]
      simp [hg]

/-- C6: for every ledger, every row `r` without entry in `taken` and every user,
handling the claim action `apply|<r>` of that user returns with `taken[r]` set to the
name `users` holds for the user, and to `chat:<id>` when it holds none; the recorded
claimant is not the empty string, `urlToRow` is unchanged and so is the claimant of
every other row.  User 1414802865 is recorded as Подтероб Юлия Сергеевна. -/
theorem C6_open_to_claimed (s : Ledger) (r : Int) (q : CallbackQuery) (hr : InInt64 r)
    (hopen : s.taken.get? r = none) (hd : q.Data = "apply|".toList ++ fmtInt r) :
    ∃ s1 out, handleCallback s q = Except.ok (s1, out) ∧
      s1.taken.get? r = some (directoryName q.FromID) ∧
      directoryName q.FromID ≠ [] ∧
      s1.urlToRow = s.urlToRow ∧
      (∀ r1 : Int, r1 ≠ r → s1.taken.get? r1 = s.taken.get? r1) ∧
      directoryName 1414802865 = "Подтероб Юлия Сергеевна".toList := by
  rw [handleCallback_apply s q r hr hd, hopen]
  refine ⟨_, _, rfl, ?_, ?_, rfl, ?_, by decide⟩
  · rw [← claimantName_eq_directoryName]
    exact GoMap.get?_set_same _ _ _
  · rw [← claimantName_eq_directoryName]
    exact claimantName_ne_nil _
  · intro r1 h1
    exact GoMap.get?_set_other _ _ _ _ h1

/-- C6 at the end-to-end scenario: user 1414802865 presses `apply|7` on the open row 7,
and the ledger becomes the one with that user's name at row 7. -/
theorem C6_open_to_claimed_witness :
    InInt64 7 ∧ ledgerOpen7.taken.get? 7 = none ∧
    ledgerOf (handleCallback ledgerOpen7 (press 1414802865 "apply|7")) = some ledgerClaimed7 ∧
    ∃ s1 out, handleCallback ledgerOpen7 (press 1414802865 "apply|7") = Except.ok (s1, out) ∧
      s1.taken.get? 7 = some (directoryName 1414802865) ∧
      directoryName 1414802865 ≠ [] ∧
      s1.urlToRow = ledgerOpen7.urlToRow ∧
      (∀ r1 : Int, r1 ≠ 7 → s1.taken.get? r1 = ledgerOpen7.taken.get? r1) ∧
      directoryName 1414802865 = "Подтероб Юлия Сергеевна".toList :=
  ⟨by decide, by decide, by decide,
    C6_open_to_claimed ledgerOpen7 7 (press 1414802865 "apply|7") (by decide) (by decide)
      (by decide)⟩

/-! ## C7: a failed append -/

/-- C7, refuted as stated: once a user has pressed `apply|0` (the control of an earlier
failed append), row 0 has a claimant, and the control `sendVacanciesToChat` renders for a
new listing whose append fails carries the payload `noop`, not `apply|0`. -/
theorem C7_failed_append_counterexample :
    ledgerZeroClaimed = ⟨GoMap.empty, ⟨[(0, "chat:5".toList)]⟩⟩ ∧
    appendVacancy ledgerZeroClaimed scenarioListing none = Except.ok (0, ledgerZeroClaimed) ∧
    sendVacanciesToChat ledgerZeroClaimed 1 [(scenarioListing, none)] =
      Except.ok (ledgerZeroClaimed,
        [Effect.sendMessage 1 scenarioListing (keyboard ledgerZeroClaimed 0)]) ∧
    firstPayload (keyboard ledgerZeroClaimed 0) = some "noop".toList ∧
    firstPayload (keyboard ledgerZeroClaimed 0) ≠ some "apply|0".toList := by
  refine ⟨by decide, rfl, rfl, by decide, by decide⟩

/-- C7, amended: when the append fails, `appendVacancy` returns row 0 and leaves
`urlToRow` and `taken` unchanged, so the identifier still has no row; for a listing
without row in `urlToRow`, `sendVacanciesToChat` then sends it with the control
`keyboard(0)`, whose payload is `apply|0` when row 0 has no entry in `taken` and `noop`
when it has one. -/
theorem C7_failed_append_amended (s : Ledger) (v : Vacancy) (chatID : Int)
    (hnew : s.urlToRow.get? v.URL = none) :
    appendVacancy s v none = Except.ok (0, s) ∧
    sendVacanciesToChat s chatID [(v, none)] =
      Except.ok (s, [Effect.sendMessage chatID v (keyboard s 0)]) ∧
    (s.taken.get? 0 = none → firstPayload (keyboard s 0) = some "apply|0".toList) ∧
    (s.taken.get? 0 ≠ none → firstPayload (keyboard s 0) = some "noop".toList) := by
  refine ⟨rfl, ?_, ?_, ?_⟩
  · simp [sendVacanciesToChat, resolveRow, hnew, appendVacancy]
  · intro h0
    rw [firstPayload_keyboard, h0]
    rfl
  · intro h0
    rw [firstPayload_keyboard]
    cases h : s.taken.get? 0 with
    | none => exact absurd h h0
    | some nm => rfl

/-- C7 amended, at the empty ledger and the listing of the scenario. -/
theorem C7_failed_append_amended_witness :
    ledgerEmpty.urlToRow.get? scenarioListing.URL = none ∧
    appendVacancy ledgerEmpty scenarioListing none = Except.ok (0, ledgerEmpty) ∧
    sendVacanciesToChat ledgerEmpty 1 [(scenarioListing, none)] =
      Except.ok (ledgerEmpty, [Effect.sendMessage 1 scenarioListing (keyboard ledgerEmpty 0)]) ∧
    (ledgerEmpty.taken.get? 0 = none →
      firstPayload (keyboard ledgerEmpty 0) = some "apply|0".toList) ∧
    (ledgerEmpty.taken.get? 0 ≠ none →
      firstPayload (keyboard ledgerEmpty 0) = some "noop".toList) :=
  ⟨by decide, C7_failed_append_amended ledgerEmpty scenarioListing 1 (by decide)⟩

/-! ## C8: claim requests on the same open row -/

/-- Claim requests on a row that has a claimant, handled one after the other: each is
answered and nothing else happens. -/
theorem handleCallbacks_claimed (r : Int) (hr : InInt64 r) (s : Ledger) (n : GoString)
    (h : s.taken.get? r = some n) : ∀ qs : List CallbackQuery,
    (∀ q1 ∈ qs, q1.Data = "apply|".toList ++ fmtInt r) →
    handleCallbacks s qs = (s, qs.map (fun q1 => Effect.answerCallback q1.ID), none) := by
  intro qs
  induction qs with
  | nil => intro _; rfl
  | cons q rest ih =>
    intro hqs
    have hq := hqs q (List.mem_cons_self _ _)
    have hrest := ih (fun q1 h1 => hqs q1 (List.mem_cons_of_mem _ h1))
    have h1 : handleCallback s q = Except.ok (s, [Effect.answerCallback q.ID]) := by
      rw [handleCallback_apply s q r hr hq, h]
    simp only [handleCallbacks, h1, hrest, List.map_cons, List.singleton_append]

/-- C8: the update loop of `main` calls `handleCallback` on one callback query at a time,
so claim requests pressed at the same moment are handled in the order they arrive.  For
every ledger, every open row `r` and every sequence `q :: qs` of claim requests
`apply|<r>`, from any users and in any order of arrival, exactly one request succeeds,
the first: it sets the claimant of `r` to the name of its user, with one update of the
sheet and one edit of the control; every later request finds the row claimed, is
answered, and returns the ledger unchanged; the loop does not panic, and the ledger it
leaves is the one the first request made. -/
theorem C8_exactly_one_claim_succeeds (s : Ledger) (r : Int) (q : CallbackQuery)
    (qs : List CallbackQuery) (hr : InInt64 r) (hopen : s.taken.get? r = none)
    (hq : q.Data = "apply|".toList ++ fmtInt r)
    (hqs : ∀ q1 ∈ qs, q1.Data = "apply|".toList ++ fmtInt r) :
    ∃ s1 : Ledger, s1 = ⟨s.urlToRow, s.taken.set r (claimantName q.FromID)⟩ ∧
      s1.taken.get? r = some (claimantName q.FromID) ∧
      handleCallback s q = Except.ok (s1,
        [Effect.answerCallback q.ID,
         Effect.sheetUpdate ('J' :: fmtInt r) (claimantName q.FromID),
         Effect.editReplyMarkup q.ChatID q.MessageID (keyboard s1 r)]) ∧
      (∀ q1 ∈ qs, handleCallback s1 q1 = Except.ok (s1, [Effect.answerCallback q1.ID])) ∧
      handleCallbacks s (q :: qs) = (s1,
        [Effect.answerCallback q.ID,
         Effect.sheetUpdate ('J' :: fmtInt r) (claimantName q.FromID),
         Effect.editReplyMarkup q.ChatID q.MessageID (keyboard s1 r)] ++
          qs.map (fun q1 => Effect.answerCallback q1.ID), none) := by
  have hset : (s.taken.set r (claimantName q.FromID)).get? r = some (claimantName q.FromID) :=
    GoMap.get?_set_same _ _ _
  have h1 := handleCallback_apply s q r hr hq
  rw [hopen] at h1
  refine ⟨_, rfl, hset, h1, ?_, ?_⟩
  · intro q1 hq1
    rw [handleCallback_apply _ q1 r hr (hqs q1 hq1)]
    simp only [hset]
  · have h2 := handleCallbacks_claimed r hr
      ⟨s.urlToRow, s.taken.set r (claimantName q.FromID)⟩ (claimantName q.FromID) hset qs hqs
    simp only [handleCallbacks, h1, h2]

/-- C8 at the end-to-end scenario: three users press `apply|7` on the open row 7; user
1414802865 arrives first and is the claimant the loop leaves. -/
theorem C8_exactly_one_claim_succeeds_witness :
    InInt64 7 ∧ ledgerOpen7.taken.get? 7 = none ∧
    (handleCallbacks ledgerOpen7
      [press 1414802865 "apply|7", press 741457312 "apply|7", press 5 "apply|7"]).1 =
      ledgerClaimed7 ∧
    ∃ s1 : Ledger,
      s1 = ⟨ledgerOpen7.urlToRow, ledgerOpen7.taken.set 7 (claimantName 1414802865)⟩ ∧
      s1.taken.get? 7 = some (claimantName 1414802865) ∧
      handleCallback ledgerOpen7 (press 1414802865 "apply|7") = Except.ok (s1,
        [Effect.answerCallback "cb".toList,
         Effect.sheetUpdate ('J' :: fmtInt 7) (claimantName 1414802865),
         Effect.editReplyMarkup 1 1 (keyboard s1 7)]) ∧
      (∀ q1 ∈ [press 741457312 "apply|7", press 5 "apply|7"],
        handleCallback s1 q1 = Except.ok (s1, [Effect.answerCallback q1.ID])) ∧
      handleCallbacks ledgerOpen7
          (press 1414802865 "apply|7" :: [press 741457312 "apply|7", press 5 "apply|7"]) =
        (s1,
          [Effect.answerCallback "cb".toList,
           Effect.sheetUpdate ('J' :: fmtInt 7) (claimantName 1414802865),
           Effect.editReplyMarkup 1 1 (keyboard s1 7)] ++
            [press 741457312 "apply|7", press 5 "apply|7"].map
              (fun q1 => Effect.answerCallback q1.ID), none) :=
  ⟨by decide, by decide, by decide,
    C8_exactly_one_claim_succeeds ledgerOpen7 7 (press 1414802865 "apply|7")
      [press 741457312 "apply|7", press 5 "apply|7"] (by decide) (by decide) (by decide)
      (by decide)⟩

/-! ## C9: the payload without delimiter -/

theorem stringsSplit_ne_nil (s : GoString) (sep : Char) : stringsSplit s sep ≠ [] := by
  cases s with
  | nil => simp [stringsSplit]
  | cons c cs =>
    unfold stringsSplit
    split_ifs
    · simp
    · cases stringsSplit cs sep <;> simp

/-- A split with a single part is the text itself. -/
theorem stringsSplit_single (s : GoString) (sep : Char) :
    ∀ p : GoString, stringsSplit s sep = [p] → s = p := by
  induction s with
  | nil => intro p h; simpa [stringsSplit] using h
  | cons c cs ih =>
    intro p h
    unfold stringsSplit at h
    split_ifs at h with hc
    · simp only [List.cons.injEq] at h
      exact absurd h.2 (stringsSplit_ne_nil cs sep)
    · cases hs : stringsSplit cs sep with
      | nil => exact absurd hs (stringsSplit_ne_nil cs sep)
      | cons p1 ps =>
        rw [hs] at h
        simp only [List.cons.injEq] at h
        obtain ⟨hp, hps⟩ := h
        rw [hps] at hs
        rw [← hp, ih p1 hs]

/-- The only payload on which `handleCallback` panics is `apply`; the callback has been
answered by then. -/
theorem handleCallback_panics_iff (s : Ledger) (q : CallbackQuery) :
    handleCallback s q =
      Except.error (Panic.indexOutOfRange, [Effect.answerCallback q.ID]) ↔
    q.Data = "apply".toList := by
  constructor
  · intro h
    unfold handleCallback at h
    dsimp only at h
    cases hs : stringsSplit q.Data '|' with
    | nil => exact absurd hs (stringsSplit_ne_nil _ _)
    | cons p0 ps =>
      rw [hs] at h
      simp only [index, List.get?] at h
      split_ifs at h with hp
      cases ps with
      | nil =>
        rw [not_not] at hp
        rw [hp] at hs
        exact stringsSplit_single _ _ _ hs
      | cons p1 rest =>
        simp only [List.get?] at h
        cases ht : s.taken.get? (strconvAtoi p1).1 with
        | none => rw [ht] at h; cases h
        | some nm => rw [ht] at h; cases h
  · intro h
    unfold handleCallback
    rw [h]
    rfl

/-- C9, the code at the failing input: on the payload `apply`, which has no `|`,
`strings.Split` gives the single part `apply`, the test of `parts[0]` passes, and reading
`parts[1]` is out of range: after it has answered the callback, `handleCallback` panics,
in every ledger and for every user, and the update loop stops there.  It is the only
payload that panics. -/
theorem C9_handleCallback_panics_on_apply (s : Ledger) (queryID : GoString)
    (fromID chatID messageID : Int) :
    stringsSplit "apply".toList '|' = ["apply".toList] ∧
    handleCallback s ⟨queryID, fromID, "apply".toList, chatID, messageID⟩ =
      Except.error (Panic.indexOutOfRange, [Effect.answerCallback queryID]) ∧
    handleCallbacks s [⟨queryID, fromID, "apply".toList, chatID, messageID⟩] =
      (s, [Effect.answerCallback queryID], some Panic.indexOutOfRange) ∧
    (∀ q : CallbackQuery, (∃ e, handleCallback s q = Except.error e) ↔
      q.Data = "apply".toList) := by
  have h : handleCallback s ⟨queryID, fromID, "apply".toList, chatID, messageID⟩ =
      Except.error (Panic.indexOutOfRange, [Effect.answerCallback queryID]) := rfl
  refine ⟨by decide, h, ?_, ?_⟩
  · simp only [handleCallbacks, h]
  · intro q
    constructor
    · rintro ⟨e, he⟩
      rcases handleCallback_cases s q with h1 | ⟨o, h1⟩ | ⟨row, o, _, h1⟩
      · exact (handleCallback_panics_iff s q).1 h1
      · rw [h1] at he; cases he
      · rw [h1] at he; cases he
    · intro hq
      exact ⟨_, (handleCallback_panics_iff s q).2 hq⟩

/-! ## C10: the payload round trip -/

/-- C10: for every 64-bit row `r`, splitting the payload `apply|<r>` on `|` gives the two
parts `apply` and the decimal text of `r`, `strconv.Atoi` reads `r` back from the second
part without error, and on an open row the payload `keyboard` puts on the claim button,
sent back by any user, makes `handleCallback` claim exactly row `r`. -/
theorem C10_payload_round_trip (s : Ledger) (r : Int) (hr : InInt64 r) :
    stringsSplit ("apply|".toList ++ fmtInt r) '|' = ["apply".toList, fmtInt r] ∧
    strconvAtoi (fmtInt r) = (r, none) ∧
    (s.taken.get? r = none →
      firstPayload (keyboard s r) = some ("apply|".toList ++ fmtInt r) ∧
      ∀ q : CallbackQuery, firstPayload (keyboard s r) = some q.Data →
        ledgerOf (handleCallback s q) =
          some ⟨s.urlToRow, s.taken.set r (claimantName q.FromID)⟩) := by
  refine ⟨stringsSplit_apply _ (fmtInt_no_bar r), strconvAtoi_fmtInt r hr, ?_⟩
  intro hopen
  have hk : firstPayload (keyboard s r) = some ("apply|".toList ++ fmtInt r) := by
    rw [firstPayload_keyboard, hopen]
  refine ⟨hk, ?_⟩
  intro q hq
  rw [hk] at hq
  injection hq with hq
  rw [handleCallback_apply s q r hr hq.symm, hopen]
  rfl

/-- C10 at a negative row: the payload `apply|-12` of the open row -12. -/
theorem C10_payload_round_trip_witness :
    InInt64 (-12) ∧ fmtInt (-12) = "-12".toList ∧
    stringsSplit ("apply|".toList ++ fmtInt (-12)) '|' = ["apply".toList, fmtInt (-12)] ∧
    strconvAtoi (fmtInt (-12)) = (-12, none) ∧
    (ledgerEmpty.taken.get? (-12) = none →
      firstPayload (keyboard ledgerEmpty (-12)) = some ("apply|".toList ++ fmtInt (-12)) ∧
      ∀ q : CallbackQuery, firstPayload (keyboard ledgerEmpty (-12)) = some q.Data →
        ledgerOf (handleCallback ledgerEmpty q) =
          some ⟨ledgerEmpty.urlToRow, ledgerEmpty.taken.set (-12) (claimantName q.FromID)⟩) :=
  ⟨by decide, by decide, C10_payload_round_trip ledgerEmpty (-12) (by decide)⟩

end VacancyBot
